import Mathlib

/-!
# Verification of the `useful-stuff` repository against its specification

Part 1 models the cost-attribution state machine and checkpoint ledger.
That core component is described by the specification but its implementation
is not among the provided source files, so every definition in Part 1 is
modelled directly from the specification text (each doc comment says so).
Costs are modelled as rational numbers.

Part 2 embeds `scripts/update_pydantic_ai_docs.py` (URL extraction and
flat-file-path mapping) and Part 3 embeds `scripts/ollama_mcp_server.py`
(the `run_inference` tool), both translated from the Python sources.
-/

namespace Attribution

/-- Modelled from the spec: the execution-context enum
`{Primary, Subagent, DirectExternalCall}` of §3 `SessionState.currentContext`. -/
inductive Context where
  | Primary
  | Subagent
  | DirectExternalCall
deriving DecidableEq, Repr

/-- Modelled from the spec: the two context kinds that carry enter/exit
events in §4.1 (`onContextEnter(kind, label)` / `onContextExit(kind)`). -/
inductive ContextKind where
  | Subagent
  | DirectExternalCall
deriving DecidableEq, Repr

/-- Modelled from the spec: the `attributedTotals` mapping
`{Primary, Subagent, DirectExternalCall} → accumulated cost` of §3. -/
structure Totals where
  primary : ℚ
  subagent : ℚ
  directExternalCall : ℚ
deriving DecidableEq, Repr

/-- The all-zero totals. -/
def Totals.zero : Totals := ⟨0, 0, 0⟩

/-- Add an amount to the bucket of one context. -/
def Totals.add (t : Totals) (c : Context) (q : ℚ) : Totals :=
  match c with
  | .Primary => { t with primary := t.primary + q }
  | .Subagent => { t with subagent := t.subagent + q }
  | .DirectExternalCall => { t with directExternalCall := t.directExternalCall + q }

/-- Look up the bucket of one context. -/
def Totals.get (t : Totals) (c : Context) : ℚ :=
  match c with
  | .Primary => t.primary
  | .Subagent => t.subagent
  | .DirectExternalCall => t.directExternalCall

/-- The three-way sum over all contexts. -/
def Totals.sum (t : Totals) : ℚ :=
  t.primary + t.subagent + t.directExternalCall

/-- Modelled from the spec: the immutable `Checkpoint` record of §3:
`{timestampMs, cumulativeCost, contextAtTime, subagentLabelAtTime,
externalCallLabelAtTime}`, the labels present only for the matching context. -/
structure Checkpoint where
  timestampMs : Nat
  cumulativeCost : ℚ
  contextAtTime : Context
  subagentLabelAtTime : Option String := none
  externalCallLabelAtTime : Option String := none
deriving DecidableEq, Repr

/-- Modelled from the spec: the `SessionState` record of §3. -/
structure SessionState where
  currentContext : Context := .Primary
  subagentDepth : Nat := 0
  activeSubagentLabel : Option String := none
  activeExternalCallLabel : Option String := none
  lastObservedCost : ℚ := 0
  checkpoints : List Checkpoint := []
  attributedTotals : Totals := .zero
deriving DecidableEq, Repr

/-- Modelled from the spec: the freshly initialized state of §3 Lifecycle
(default Primary context, empty ledger). -/
def initialSessionState : SessionState := {}

/-- Modelled from the spec: `onContextEnter(kind, label)` of §4.1.
Subagent: depth += 1, context := Subagent, the first enter (at depth 1) sets
the label and nested enters do not overwrite it. DirectExternalCall: only
takes effect when the current context is Primary. -/
def onContextEnter (kind : ContextKind) (label : String) (s : SessionState) : SessionState :=
  match kind with
  | .Subagent =>
      { s with
        subagentDepth := s.subagentDepth + 1
        currentContext := .Subagent
        activeSubagentLabel :=
          if s.subagentDepth = 0 then some label else s.activeSubagentLabel }
  | .DirectExternalCall =>
      if s.currentContext = .Primary then
        { s with
          currentContext := .DirectExternalCall
          activeExternalCallLabel := some label }
      else s

/-- Modelled from the spec: `onContextExit(kind)` of §4.1. Subagent:
depth -= 1, and when depth reaches 0 the context reverts to Primary and the
label clears. DirectExternalCall: closes only when the exiting call
identifier matches the active one. Exit events for a context kind that is
not currently active are no-ops (§4.1 "No error conditions"). -/
def onContextExit (kind : ContextKind) (label : String) (s : SessionState) : SessionState :=
  match kind with
  | .Subagent =>
      if s.currentContext = .Subagent then
        if s.subagentDepth - 1 = 0 then
          { s with
            subagentDepth := 0
            currentContext := .Primary
            activeSubagentLabel := none }
        else { s with subagentDepth := s.subagentDepth - 1 }
      else s
  | .DirectExternalCall =>
      if s.currentContext = .DirectExternalCall ∧ s.activeExternalCallLabel = some label then
        { s with
          currentContext := .Primary
          activeExternalCallLabel := none }
      else s

/-- Modelled from the spec: `onForceReset()` of §4.1 — unconditionally sets
depth := 0, context := Primary, and clears both labels. -/
def onForceReset (s : SessionState) : SessionState :=
  { s with
    subagentDepth := 0
    currentContext := .Primary
    activeSubagentLabel := none
    activeExternalCallLabel := none }

/-- Modelled from the spec: the checkpoint appended by `recordObservation`
(§4.2), capturing the current context snapshot with the label fields present
only for the matching context (§3 `Checkpoint`). -/
def snapshotCheckpoint (nowMs : Nat) (cost : ℚ) (s : SessionState) : Checkpoint :=
  { timestampMs := nowMs
    cumulativeCost := cost
    contextAtTime := s.currentContext
    subagentLabelAtTime :=
      if s.currentContext = .Subagent then s.activeSubagentLabel else none
    externalCallLabelAtTime :=
      if s.currentContext = .DirectExternalCall then s.activeExternalCallLabel else none }

/-- Modelled from the spec: the ledger capacity N = 1000 of §3 / §4.2. -/
def ledgerCapacity : Nat := 1000

/-- Modelled from the spec: `recordObservation(cumulativeCost, contextSnapshot)`
of §4.2 — a no-op unless `cumulativeCost > lastObservedCost`; otherwise
appends a checkpoint capturing the current context snapshot and truncates
the sequence to the most recent 1000 entries, dropping the oldest. -/
def recordObservation (nowMs : Nat) (cost : ℚ) (s : SessionState) : SessionState :=
  if s.lastObservedCost < cost then
    let appended := s.checkpoints ++ [snapshotCheckpoint nowMs cost s]
    { s with
      lastObservedCost := cost
      checkpoints := appended.drop (appended.length - ledgerCapacity) }
  else s

/-- Modelled from the spec: the loop of `recompute()` (§4.2) — for each
consecutive pair, the delta is skipped when `delta <= 0` and otherwise
attributed to the earlier checkpoint's `contextAtTime`. -/
def recomputeLoop (prev : Checkpoint) (rest : List Checkpoint) (acc : Totals) : Totals :=
  match rest with
  | [] => acc
  | c :: cs =>
      recomputeLoop c cs
        (if prev.cumulativeCost < c.cumulativeCost then
          acc.add prev.contextAtTime (c.cumulativeCost - prev.cumulativeCost)
        else acc)

/-- Modelled from the spec: `recompute()` of §4.2 — the first checkpoint's
absolute `cumulativeCost` is attributed to its own `contextAtTime`, and each
later positive delta to the preceding checkpoint's `contextAtTime`. -/
def recompute (cps : List Checkpoint) : Totals :=
  match cps with
  | [] => .zero
  | c :: cs => recomputeLoop c cs (Totals.zero.add c.contextAtTime c.cumulativeCost)

/-- Modelled from the spec: the state effect of `recompute()` per §3
`attributedTotals` — the derived cache is fully replaced by the value
recomputed from the checkpoint ledger. -/
def recomputeState (s : SessionState) : SessionState :=
  { s with attributedTotals := recompute s.checkpoints }

/-- Modelled from the spec: the `Breakdown` record of §6 —
`{total, primary, subagent, directExternalCall, currentContext, currentLabel}`. -/
structure Breakdown where
  total : ℚ
  primary : ℚ
  subagent : ℚ
  directExternalCall : ℚ
  currentContext : Context
  currentLabel : Option String
deriving DecidableEq, Repr

/-- Modelled from the spec: the live context label reported in the
Breakdown — the active sub-agent or external-call label, if any. -/
def currentLabelOf (s : SessionState) : Option String :=
  match s.currentContext with
  | .Primary => none
  | .Subagent => s.activeSubagentLabel
  | .DirectExternalCall => s.activeExternalCallLabel

/-- Modelled from the spec: the Breakdown returned to the status display,
with `total` the three-way sum of the attributed totals (§4.2). -/
def mkBreakdown (s : SessionState) : Breakdown :=
  { total := s.attributedTotals.sum
    primary := s.attributedTotals.primary
    subagent := s.attributedTotals.subagent
    directExternalCall := s.attributedTotals.directExternalCall
    currentContext := s.currentContext
    currentLabel := currentLabelOf s }

/-- Modelled from the spec: `observeCost(sessionId, cumulativeCost)` of §4.4 —
when the cost is a new maximum, record the observation with the current
context snapshot, recompute the totals, and return the Breakdown; otherwise
skip the ledger write and return the breakdown computed from the persisted
totals and the current context. -/
def observeCost (nowMs : Nat) (cost : ℚ) (s : SessionState) : SessionState × Breakdown :=
  if s.lastObservedCost < cost then
    let s2 := recomputeState (recordObservation nowMs cost s)
    (s2, mkBreakdown s2)
  else (s, mkBreakdown s)

end Attribution

namespace Attribution

instance : Inhabited Checkpoint := ⟨⟨0, 0, .Primary, none, none⟩⟩

/-- Adding an amount to one bucket raises the three-way sum by that amount. -/
theorem Totals.sum_add (t : Totals) (c : Context) (q : ℚ) :
    (t.add c q).sum = t.sum + q := by
  cases c <;> simp [Totals.add, Totals.sum] <;> ring

/-- Reading one bucket after an add: the amount lands exactly in the bucket
of the context it was attributed to. -/
theorem Totals.get_add (t : Totals) (c : Context) (q : ℚ) (ctx : Context) :
    (t.add c q).get ctx = t.get ctx + (if c = ctx then q else 0) := by
  cases c <;> cases ctx <;> simp [Totals.add, Totals.get]

/-- The zero totals read zero in every bucket. -/
theorem Totals.get_zero (ctx : Context) : Totals.zero.get ctx = 0 := by
  cases ctx <;> rfl

/-- Over a non-decreasing checkpoint segment, the recompute loop adds exactly
the telescoped total (last cost minus the cost at the segment start). -/
theorem recomputeLoop_sum (rest : List Checkpoint) (prev : Checkpoint) (acc : Totals)
    (h : (prev :: rest).Chain' (fun a b => a.cumulativeCost ≤ b.cumulativeCost)) :
    (recomputeLoop prev rest acc).sum =
      acc.sum + (rest.getLastD prev).cumulativeCost - prev.cumulativeCost := by
  induction rest generalizing prev acc with
  | nil => simp [recomputeLoop]
  | cons c cs ih =>
      rw [List.chain'_cons] at h
      obtain ⟨hpc, hc⟩ := h
      rw [recomputeLoop, List.getLastD_cons, ih c _ hc]
      by_cases hlt : prev.cumulativeCost < c.cumulativeCost
      · rw [if_pos hlt, Totals.sum_add]
        ring
      · rw [if_neg hlt]
        have : c.cumulativeCost = prev.cumulativeCost := le_antisymm (not_lt.mp hlt) hpc
        rw [this]

/-- Over a strictly increasing checkpoint segment, each bucket of the
recompute loop output is the bucket of the accumulator plus the per-interval
deltas attributed to the earlier checkpoint of each consecutive pair. -/
theorem recomputeLoop_get (rest : List Checkpoint) (prev : Checkpoint) (acc : Totals)
    (h : (prev :: rest).Chain' (fun a b => a.cumulativeCost < b.cumulativeCost))
    (ctx : Context) :
    (recomputeLoop prev rest acc).get ctx =
      acc.get ctx +
      (((prev :: rest).zip rest).map (fun p =>
        if p.1.contextAtTime = ctx then p.2.cumulativeCost - p.1.cumulativeCost else 0)).sum := by
  induction rest generalizing prev acc with
  | nil => simp [recomputeLoop]
  | cons c cs ih =>
      rw [List.chain'_cons] at h
      obtain ⟨hpc, hc⟩ := h
      rw [recomputeLoop, if_pos hpc, List.zip_cons_cons, List.map_cons, List.sum_cons,
        ih c _ hc, Totals.get_add]
      ring

end Attribution

namespace Attribution

/-- Ledger with a decreasing cost step: recompute skips the non-positive
delta, so the totals keep the first absolute cost and conservation fails. -/
def corruptedLedger : List Checkpoint :=
  [{ timestampMs := 0, cumulativeCost := 5, contextAtTime := .Primary },
   { timestampMs := 1, cumulativeCost := 3, contextAtTime := .Primary }]

/-- C1 counterexample: on the two-checkpoint ledger with cumulative costs
5 then 3, the per-context totals of `recompute` sum to 5 while the last
checkpoint's `cumulativeCost` is 3, so the conservation property fails for
this ledger — it does not hold "for all ledgers without exception". -/
theorem recompute_conservation_counterexample :
    (recompute corruptedLedger).sum = 5 ∧
    (corruptedLedger.getLast (by simp [corruptedLedger])).cumulativeCost = 3 ∧
    (recompute corruptedLedger).sum ≠
      (corruptedLedger.getLast (by simp [corruptedLedger])).cumulativeCost := by
  refine ⟨?_, ?_, ?_⟩ <;>
    norm_num [corruptedLedger, recompute, recomputeLoop, Totals.sum, Totals.add, Totals.zero,
      List.getLast]

/-- C1 (amended): for every nonempty ledger whose cumulative costs are
non-decreasing along the sequence (as the recording precondition
guarantees), the per-context totals returned by `recompute` sum exactly to
the last checkpoint's `cumulativeCost` — conservation of total cost across
contexts. -/
theorem recompute_conservation (cps : List Checkpoint) (h : cps ≠ [])
    (hmono : cps.Chain' (fun a b => a.cumulativeCost ≤ b.cumulativeCost)) :
    (recompute cps).sum = (cps.getLast h).cumulativeCost := by
  cases cps with
  | nil => exact absurd rfl h
  | cons c cs =>
      rw [List.getLast_eq_getLastD, recompute, recomputeLoop_sum cs c _ hmono, Totals.sum_add]
      simp [Totals.sum, Totals.zero]

/-- C1 witness: conservation evaluated on a concrete increasing ledger. -/
theorem recompute_conservation_witness :
    ([({ timestampMs := 0, cumulativeCost := 1, contextAtTime := .Primary } : Checkpoint),
      { timestampMs := 1, cumulativeCost := 2, contextAtTime := .Subagent }] ≠
        ([] : List Checkpoint)) ∧
    (recompute
      [{ timestampMs := 0, cumulativeCost := 1, contextAtTime := .Primary },
       { timestampMs := 1, cumulativeCost := 2, contextAtTime := .Subagent }]).sum =
      (([({ timestampMs := 0, cumulativeCost := 1, contextAtTime := .Primary } : Checkpoint),
         { timestampMs := 1, cumulativeCost := 2, contextAtTime := .Subagent }]).getLast
        (by simp)).cumulativeCost :=
  ⟨by simp,
   recompute_conservation
     [{ timestampMs := 0, cumulativeCost := 1, contextAtTime := .Primary },
      { timestampMs := 1, cumulativeCost := 2, contextAtTime := .Subagent }]
     (by simp) (by norm_num [List.chain'_cons])⟩

/-- C2: for every ledger with at least two checkpoints and strictly
increasing cumulative costs, each per-context total of `recompute` is the
first checkpoint's absolute `cumulativeCost` when that first checkpoint's
own `contextAtTime` matches, plus, over every consecutive pair (index i from
1 to len-1), the positive delta `checkpoints[i].cumulativeCost -
checkpoints[i-1].cumulativeCost` attributed to `checkpoints[i-1].contextAtTime`,
the context active at the start of the interval. -/
theorem recompute_interval_attribution (cps : List Checkpoint)
    (h2 : 2 ≤ cps.length)
    (hmono : cps.Chain' (fun a b => a.cumulativeCost < b.cumulativeCost))
    (ctx : Context) :
    (recompute cps).get ctx =
      (if cps.headI.contextAtTime = ctx then cps.headI.cumulativeCost else 0) +
      ((cps.zip cps.tail).map (fun p =>
        if p.1.contextAtTime = ctx then p.2.cumulativeCost - p.1.cumulativeCost else 0)).sum := by
  cases cps with
  | nil => simp at h2
  | cons c cs =>
      rw [recompute, recomputeLoop_get cs c _ hmono ctx, Totals.get_add, Totals.get_zero]
      simp [List.headI, List.tail]

/-- C2 witness: interval attribution evaluated on a concrete two-checkpoint
strictly increasing ledger at context Primary. -/
theorem recompute_interval_attribution_witness :
    (2 ≤ ([({ timestampMs := 0, cumulativeCost := 1, contextAtTime := .Primary } : Checkpoint),
           { timestampMs := 1, cumulativeCost := 2, contextAtTime := .Subagent }]).length) ∧
    (recompute
      [{ timestampMs := 0, cumulativeCost := 1, contextAtTime := .Primary },
       { timestampMs := 1, cumulativeCost := 2, contextAtTime := .Subagent }]).get .Primary =
      (if (([({ timestampMs := 0, cumulativeCost := 1, contextAtTime := .Primary } : Checkpoint),
             { timestampMs := 1, cumulativeCost := 2, contextAtTime := .Subagent }]).headI.contextAtTime
            = Context.Primary) then
        (([({ timestampMs := 0, cumulativeCost := 1, contextAtTime := .Primary } : Checkpoint),
           { timestampMs := 1, cumulativeCost := 2, contextAtTime := .Subagent }]).headI.cumulativeCost)
       else 0) +
      ((([({ timestampMs := 0, cumulativeCost := 1, contextAtTime := .Primary } : Checkpoint),
          { timestampMs := 1, cumulativeCost := 2, contextAtTime := .Subagent }]).zip
        (([({ timestampMs := 0, cumulativeCost := 1, contextAtTime := .Primary } : Checkpoint),
           { timestampMs := 1, cumulativeCost := 2, contextAtTime := .Subagent }]).tail)).map
        (fun p =>
          if p.1.contextAtTime = Context.Primary then
            p.2.cumulativeCost - p.1.cumulativeCost
          else 0)).sum :=
  ⟨by simp,
   recompute_interval_attribution
     [{ timestampMs := 0, cumulativeCost := 1, contextAtTime := .Primary },
      { timestampMs := 1, cumulativeCost := 2, contextAtTime := .Subagent }]
     (by simp) (by norm_num [List.chain'_cons]) .Primary⟩

end Attribution

namespace Attribution

/-- The end-to-end scenario of spec §8: enter Subagent "reviewer" at cost 0,
observe cumulative cost 1.0, exit the Subagent, observe cumulative cost 1.5. -/
def scenarioState : SessionState × Breakdown :=
  observeCost 2 (3 / 2)
    (onContextExit .Subagent "reviewer"
      (observeCost 1 1 (onContextEnter .Subagent "reviewer" initialSessionState)).1)

/-- C3 counterexample: the scenario's breakdown attributes 3/2 to subagent,
so it is not the claimed `{primary: 0.5, subagent: 1.0, directExternalCall: 0.0}`:
the first checkpoint (cost 1.0, taken inside the Subagent context) attributes
its absolute cost to Subagent, and the 0.5 delta is also attributed to the
context at the start of its interval — Subagent. -/
theorem scenario_breakdown_counterexample :
    scenarioState.2.subagent = 3 / 2 ∧
    ¬ (scenarioState.2.primary = 1 / 2 ∧ scenarioState.2.subagent = 1 ∧
       scenarioState.2.directExternalCall = 0) := by
  have hs : scenarioState.2.subagent = 3 / 2 := by
    norm_num [scenarioState, observeCost, recomputeState, recordObservation, snapshotCheckpoint,
      recompute, recomputeLoop, mkBreakdown, onContextEnter, onContextExit, initialSessionState,
      ledgerCapacity, Totals.add, Totals.zero, currentLabelOf]
  refine ⟨hs, fun hclaim => ?_⟩
  rw [hs] at hclaim
  norm_num at hclaim

/-- C3 (amended): the event sequence — enter Subagent("reviewer") at cost 0,
then observeCost(1.0), then exit Subagent, then observeCost(1.5) — produces
the breakdown `{primary: 0.0, subagent: 1.5, directExternalCall: 0.0}` under
the start-of-interval attribution rule of spec §4.2. -/
theorem scenario_breakdown :
    scenarioState.2.primary = 0 ∧ scenarioState.2.subagent = 3 / 2 ∧
    scenarioState.2.directExternalCall = 0 := by
  refine ⟨?_, ?_, ?_⟩ <;>
    norm_num [scenarioState, observeCost, recomputeState, recordObservation, snapshotCheckpoint,
      recompute, recomputeLoop, mkBreakdown, onContextEnter, onContextExit, initialSessionState,
      ledgerCapacity, Totals.add, Totals.zero, currentLabelOf]

/-- C4: observing a cost that is not strictly greater than `lastObservedCost`
is a complete no-op on the session state — no checkpoint is appended and the
attributed totals (and every other state field) are unchanged. -/
theorem observeCost_stale_noop (nowMs : Nat) (cost : ℚ) (s : SessionState)
    (h : cost ≤ s.lastObservedCost) :
    (observeCost nowMs cost s).1 = s ∧
    (observeCost nowMs cost s).1.checkpoints = s.checkpoints ∧
    (observeCost nowMs cost s).1.attributedTotals = s.attributedTotals := by
  have hn : ¬ s.lastObservedCost < cost := not_lt.mpr h
  simp [observeCost, hn]

/-- C4 witness: a stale observation (cost 0 against lastObservedCost 0) on
the initial state leaves the state unchanged. -/
theorem observeCost_stale_noop_witness :
    ((0 : ℚ) ≤ initialSessionState.lastObservedCost) ∧
    (observeCost 5 0 initialSessionState).1 = initialSessionState :=
  ⟨by norm_num [initialSessionState],
   (observeCost_stale_noop 5 0 initialSessionState (by norm_num [initialSessionState])).1⟩

/-- C5: recomputation is idempotent — replacing the cached totals by the
value recomputed from the unchanged checkpoint ledger a second time yields
the identical state and the identical Breakdown. -/
theorem recompute_idempotent (s : SessionState) :
    recomputeState (recomputeState s) = recomputeState s ∧
    mkBreakdown (recomputeState (recomputeState s)) = mkBreakdown (recomputeState s) := by
  exact ⟨rfl, rfl⟩

/-- C6: recording an observation keeps the ledger at or below the capacity
of 1000; an accepted observation yields a suffix of the appended sequence
(so eviction removes only the oldest entries and keeps the most recent ones
in chronological order), and a full ledger stays at exactly 1000 entries. -/
theorem recordObservation_bounded (nowMs : Nat) (cost : ℚ) (s : SessionState)
    (h : s.checkpoints.length ≤ ledgerCapacity) :
    (recordObservation nowMs cost s).checkpoints.length ≤ ledgerCapacity ∧
    (s.lastObservedCost < cost →
      (recordObservation nowMs cost s).checkpoints <:+
          s.checkpoints ++ [snapshotCheckpoint nowMs cost s] ∧
      (s.checkpoints.length = ledgerCapacity →
        (recordObservation nowMs cost s).checkpoints.length = ledgerCapacity)) := by
  by_cases hc : s.lastObservedCost < cost
  · have hrec : (recordObservation nowMs cost s).checkpoints =
        (s.checkpoints ++ [snapshotCheckpoint nowMs cost s]).drop
          ((s.checkpoints ++ [snapshotCheckpoint nowMs cost s]).length - ledgerCapacity) := by
      simp [recordObservation, hc]
    refine ⟨?_, fun _ => ⟨?_, fun hlen => ?_⟩⟩
    · rw [hrec, List.length_drop]
      omega
    · rw [hrec]
      exact List.drop_suffix _ _
    · rw [hrec, List.length_drop, List.length_append, hlen]
      simp
  · have hrec : recordObservation nowMs cost s = s := by simp [recordObservation, hc]
    rw [hrec]
    exact ⟨h, fun hcost => absurd hcost hc⟩

/-- C6 witness: recording a fresh observation on the initial (empty) ledger
stays within the capacity bound. -/
theorem recordObservation_bounded_witness :
    initialSessionState.checkpoints.length ≤ ledgerCapacity ∧
    (recordObservation 3 1 initialSessionState).checkpoints.length ≤ ledgerCapacity :=
  ⟨by norm_num [initialSessionState, ledgerCapacity],
   (recordObservation_bounded 3 1 initialSessionState
     (by norm_num [initialSessionState, ledgerCapacity])).1⟩

/-- C7: from the Primary context at depth 0, two Subagent enters followed by
two exits return to Primary at depth 0, while two enters followed by a
single exit leave the Subagent context at depth 1. -/
theorem nesting_enter_exit :
    ((onContextExit .Subagent "a"
        (onContextExit .Subagent "b"
          (onContextEnter .Subagent "b"
            (onContextEnter .Subagent "a" initialSessionState)))).currentContext =
        Context.Primary ∧
     (onContextExit .Subagent "a"
        (onContextExit .Subagent "b"
          (onContextEnter .Subagent "b"
            (onContextEnter .Subagent "a" initialSessionState)))).subagentDepth = 0) ∧
    ((onContextExit .Subagent "b"
        (onContextEnter .Subagent "b"
          (onContextEnter .Subagent "a" initialSessionState))).currentContext =
        Context.Subagent ∧
     (onContextExit .Subagent "b"
        (onContextEnter .Subagent "b"
          (onContextEnter .Subagent "a" initialSessionState))).subagentDepth = 1) := by
  refine ⟨⟨?_, ?_⟩, ⟨?_, ?_⟩⟩ <;>
    simp [onContextEnter, onContextExit, initialSessionState]

end Attribution

namespace PydanticDocs

/-- The literal `https://ai.pydantic.dev/` inside every regex match of
`extract_urls_from_llms_txt` (`scripts/update_pydantic_ai_docs.py`). -/
def urlMdBase : List Char := "https://ai.pydantic.dev/".data

/-- The literal `(https://ai.pydantic.dev/` that opens every match of the
pattern `\(https://ai\.pydantic\.dev/[^)]+\.md\)`. -/
def openParenPat : List Char := '(' :: urlMdBase

/-- Translated from `re.findall(r'\(https://ai\.pydantic\.dev/[^)]+\.md\)', content)`
in `extract_urls_from_llms_txt`: left-to-right non-overlapping scan. A match
at a position requires the literal `(https://ai.pydantic.dev/` prefix,
followed by a nonempty run of non-`)` characters that ends in `.md`,
followed by `)`; the run up to the first `)` must itself end in `.md`
because the characters matched by `[^)]+\.md` contain no `)` and the next
character must be `)`. Scanning resumes after a match, or one character
later when no match starts at the current position. The fuel argument
bounds the number of scanning steps; every step consumes at least one input
character, so fuel equal to the input length never runs out. -/
def scanMdLinks : Nat → List Char → List (List Char)
  | 0, _ => []
  | _ + 1, [] => []
  | fuel + 1, c :: rest =>
      if openParenPat.isPrefixOf (c :: rest) then
        let afterPat := (c :: rest).drop openParenPat.length
        let run := afterPat.takeWhile (fun ch => ch ≠ ')')
        if 4 ≤ run.length ∧ ".md".data.isSuffixOf run ∧ run.length < afterPat.length then
          (openParenPat ++ run ++ [')']) :: scanMdLinks fuel (afterPat.drop (run.length + 1))
        else scanMdLinks fuel rest
      else scanMdLinks fuel rest

/-- The regex matches found in the content, parentheses included. -/
def findMdMatches (content : List Char) : List (List Char) :=
  scanMdLinks content.length content

/-- A character stripped by Python's `str.strip('()')`. -/
def isParen (c : Char) : Bool := c = '(' ∨ c = ')'

/-- Translated from `match.strip('()')`: remove every leading and every
trailing character belonging to the set `{'(', ')'}`. -/
def pyStripParens (s : List Char) : List Char :=
  (((s.dropWhile isParen).reverse.dropWhile isParen)).reverse

/-- The matched URLs in match order, parentheses stripped (the
`urls = [match.strip('()') for match in matches]` list of the source). -/
def matchedUrls (content : List Char) : List (List Char) :=
  (findMdMatches content).map pyStripParens

/-- Translated from the `seen` / `unique_urls` loop of
`extract_urls_from_llms_txt`: keep the first occurrence of each URL,
dropping later duplicates. -/
def dedupeKeepFirst : List (List Char) → List (List Char) → List (List Char)
  | [], _ => []
  | u :: rest, seen =>
      if u ∈ seen then dedupeKeepFirst rest seen
      else u :: dedupeKeepFirst rest (u :: seen)

/-- Translated from `extract_urls_from_llms_txt` of
`scripts/update_pydantic_ai_docs.py` (strings modelled as `List Char`). -/
def extract_urls_from_llms_txt (content : List Char) : List (List Char) :=
  dedupeKeepFirst (matchedUrls content) []

end PydanticDocs

namespace PydanticDocs

end PydanticDocs

namespace PydanticDocs

/-- Every scanner match is the literal `(https://ai.pydantic.dev/` followed
by a nonempty run of non-`)` characters ending in `.md`, followed by `)`. -/
theorem scanMdLinks_shape (fuel : Nat) :
    ∀ (s m : List Char), m ∈ scanMdLinks fuel s →
      ∃ run : List Char, m = openParenPat ++ run ++ [')'] ∧
        4 ≤ run.length ∧ ".md".data <:+ run ∧ ∀ c ∈ run, c ≠ ')' := by
  induction fuel with
  | zero =>
      intro s m hm
      simp [scanMdLinks] at hm
  | succ n ih =>
      intro s m hm
      cases s with
      | nil => simp [scanMdLinks] at hm
      | cons c rest =>
          rw [scanMdLinks] at hm
          by_cases hp : openParenPat.isPrefixOf (c :: rest)
          · rw [if_pos hp] at hm
            set afterPat := (c :: rest).drop openParenPat.length with hafter
            set run := afterPat.takeWhile (fun ch => ch ≠ ')') with hrun
            by_cases hok : 4 ≤ run.length ∧ ".md".data.isSuffixOf run ∧
                run.length < afterPat.length
            · rw [if_pos hok] at hm
              rcases List.mem_cons.mp hm with rfl | htail
              · refine ⟨run, rfl, hok.1, List.isSuffixOf_iff_suffix.mp hok.2.1, ?_⟩
                intro ch hch
                have := List.mem_takeWhile_imp (hrun ▸ hch)
                simpa using this
              · exact ih _ m htail
            · rw [if_neg hok] at hm
              exact ih rest m hm
          · rw [if_neg hp] at hm
            exact ih rest m hm

/-- Stripping the parentheses from a scanner match yields
`https://ai.pydantic.dev/` followed by the run. -/
theorem pyStripParens_match (run : List Char)
    (hsuf : ".md".data <:+ run) :
    pyStripParens (openParenPat ++ run ++ [')']) = urlMdBase ++ run := by
  obtain ⟨t, rfl⟩ := hsuf
  have hpo : isParen '(' = true := by decide
  have hpc : isParen ')' = true := by decide
  have hph : isParen 'h' = false := by decide
  have hpd : isParen 'd' = false := by decide
  have hbase : urlMdBase = 'h' :: "ttps://ai.pydantic.dev/".data := rfl
  have hmd : (".md".data) = ['.', 'm', 'd'] := rfl
  have hA : ∀ l : List Char, List.dropWhile isParen ('(' :: l) = List.dropWhile isParen l := by
    intro l
    rw [List.dropWhile_cons, hpo, if_pos rfl]
  have hC : ∀ l : List Char, List.dropWhile isParen (')' :: l) = List.dropWhile isParen l := by
    intro l
    rw [List.dropWhile_cons, hpc, if_pos rfl]
  have hB : ∀ l : List Char, List.dropWhile isParen (urlMdBase ++ l) = urlMdBase ++ l := by
    intro l
    rw [hbase, List.cons_append, List.dropWhile_cons, hph]
    simp
  have hD : ∀ l : List Char, List.dropWhile isParen ('d' :: l) = 'd' :: l := by
    intro l
    rw [List.dropWhile_cons, hpd]
    simp
  rw [hmd, pyStripParens, openParenPat, List.append_assoc, List.cons_append, hA, hB]
  have hw1 : urlMdBase ++ ((t ++ ['.', 'm', 'd']) ++ [')']) =
      ((urlMdBase ++ (t ++ ['.', 'm'])) ++ ['d']) ++ [')'] := by simp
  rw [hw1, List.reverse_append, List.reverse_append, List.reverse_singleton,
    List.singleton_append, List.reverse_singleton, List.singleton_append, hC, hD]
  simp

/-- Membership in the first-occurrence dedup loop: an element is kept iff it
occurs in the input and is not among the already-seen elements. -/
theorem mem_dedupeKeepFirst (l : List (List Char)) :
    ∀ (seen : List (List Char)) (u : List Char),
      u ∈ dedupeKeepFirst l seen ↔ u ∈ l ∧ u ∉ seen := by
  induction l with
  | nil => intro seen u; simp [dedupeKeepFirst]
  | cons v rest ih =>
      intro seen u
      rw [dedupeKeepFirst]
      by_cases hv : v ∈ seen
      · rw [if_pos hv, ih]
        constructor
        · exact fun ⟨h1, h2⟩ => ⟨List.mem_cons_of_mem v h1, h2⟩
        · rintro ⟨h1, h2⟩
          rcases List.mem_cons.mp h1 with rfl | h1
          · exact absurd hv h2
          · exact ⟨h1, h2⟩
      · rw [if_neg hv]
        constructor
        · intro hu
          rcases List.mem_cons.mp hu with rfl | hu
          · exact ⟨List.mem_cons_self u rest, hv⟩
          · have := (ih (v :: seen) u).mp hu
            exact ⟨List.mem_cons_of_mem v this.1,
              fun hs => this.2 (List.mem_cons_of_mem v hs)⟩
        · rintro ⟨h1, h2⟩
          rcases List.mem_cons.mp h1 with rfl | h1
          · exact List.mem_cons_self u _
          · by_cases huv : u = v
            · subst huv; exact List.mem_cons_self u _
            · exact List.mem_cons_of_mem v ((ih (v :: seen) u).mpr
                ⟨h1, fun hs => (List.mem_cons.mp hs).elim huv h2⟩)

/-- The dedup loop output is a sublist of its input. -/
theorem dedupeKeepFirst_sublist (l : List (List Char)) :
    ∀ seen : List (List Char), (dedupeKeepFirst l seen).Sublist l := by
  induction l with
  | nil => intro seen; simp [dedupeKeepFirst]
  | cons v rest ih =>
      intro seen
      rw [dedupeKeepFirst]
      by_cases hv : v ∈ seen
      · rw [if_pos hv]
        exact (ih seen).cons v
      · rw [if_neg hv]
        exact (ih (v :: seen)).cons₂ v

/-- The dedup loop output has no duplicates. -/
theorem dedupeKeepFirst_nodup (l : List (List Char)) :
    ∀ seen : List (List Char), (dedupeKeepFirst l seen).Nodup := by
  induction l with
  | nil => intro seen; simp [dedupeKeepFirst]
  | cons v rest ih =>
      intro seen
      rw [dedupeKeepFirst]
      by_cases hv : v ∈ seen
      · rw [if_pos hv]; exact ih seen
      · rw [if_neg hv]
        refine List.nodup_cons.mpr ⟨?_, ih (v :: seen)⟩
        intro hmem
        exact ((mem_dedupeKeepFirst rest (v :: seen) v).mp hmem).2
          (List.mem_cons_self v seen)

/-- The source's `seen` loop agrees with the standard-library
first-occurrence deduplication `List.eraseDups`: the library loop carries
the kept elements in reverse as its accumulator, which doubles as the set
of seen elements. -/
theorem dedupeKeepFirst_eq_eraseDups_loop (l : List (List Char)) :
    ∀ acc : List (List Char),
      List.eraseDups.loop l acc = acc.reverse ++ dedupeKeepFirst l acc := by
  induction l with
  | nil =>
      intro acc
      simp [List.eraseDups.loop, dedupeKeepFirst]
  | cons v rest ih =>
      intro acc
      by_cases hv : v ∈ acc
      · have helem : acc.elem v = true := List.elem_iff.mpr hv
        rw [List.eraseDups.loop, dedupeKeepFirst, helem, if_pos hv]
        exact ih acc
      · have helem : acc.elem v = false :=
          Bool.eq_false_iff.mpr (fun h => hv (List.elem_iff.mp h))
        rw [List.eraseDups.loop, dedupeKeepFirst, helem, if_neg hv, ih (v :: acc)]
        simp

/-- `extract_urls_from_llms_txt` equals the standard-library
first-occurrence deduplication of the matched URL list. -/
theorem extract_urls_eq_eraseDups (content : List Char) :
    extract_urls_from_llms_txt content = (matchedUrls content).eraseDups := by
  rw [extract_urls_from_llms_txt, List.eraseDups, dedupeKeepFirst_eq_eraseDups_loop]
  simp

end PydanticDocs

namespace PydanticDocs

/-- C8 counterexample: on the content `(https://ai.pydantic.dev/a(b.md)`
the single extracted URL still contains an opening parenthesis —
`strip('()')` removes parentheses only at the two ends, and `[^)]+` admits
`(` inside the match — so "contains no parenthesis characters" fails. -/
theorem extract_urls_paren_counterexample :
    extract_urls_from_llms_txt "(https://ai.pydantic.dev/a(b.md)".data =
      ["https://ai.pydantic.dev/a(b.md".data] ∧
    '(' ∈ "https://ai.pydantic.dev/a(b.md".data := by
  exact ⟨by decide, by decide⟩

/-- C8 (amended): for every input, `extract_urls_from_llms_txt` returns a
duplicate-free list that preserves the first-occurrence order of the matched
URLs — it equals the standard-library first-occurrence deduplication
`List.eraseDups` of the match list (in particular it is a sublist of the
match list containing exactly its elements) — and every element starts
with `https://ai.pydantic.dev/`, ends with `.md`, and contains no closing
parenthesis (an opening parenthesis may occur). -/
theorem extract_urls_properties (content : List Char) :
    (extract_urls_from_llms_txt content).Nodup ∧
    extract_urls_from_llms_txt content = (matchedUrls content).eraseDups ∧
    (extract_urls_from_llms_txt content).Sublist (matchedUrls content) ∧
    (∀ u, u ∈ extract_urls_from_llms_txt content ↔ u ∈ matchedUrls content) ∧
    (∀ u ∈ extract_urls_from_llms_txt content,
      urlMdBase <+: u ∧ ".md".data <:+ u ∧ ∀ c ∈ u, c ≠ ')') := by
  refine ⟨dedupeKeepFirst_nodup _ _, extract_urls_eq_eraseDups content,
    dedupeKeepFirst_sublist _ _, ?_, ?_⟩
  · intro u
    rw [extract_urls_from_llms_txt, mem_dedupeKeepFirst]
    simp
  · intro u hu
    have humem : u ∈ matchedUrls content :=
      (dedupeKeepFirst_sublist (matchedUrls content) []).subset hu
    obtain ⟨m, hm, rfl⟩ := List.mem_map.mp humem
    obtain ⟨run, rfl, h4, hsuf, hnp⟩ := scanMdLinks_shape content.length content m hm
    rw [pyStripParens_match run hsuf]
    refine ⟨List.prefix_append _ _, ?_, ?_⟩
    · obtain ⟨t, rfl⟩ := hsuf
      exact ⟨urlMdBase ++ t, by simp⟩
    · intro c hc
      rcases List.mem_append.mp hc with hcb | hcr
      · have hbase : ∀ c ∈ urlMdBase, c ≠ ')' := by decide
        exact hbase c hcb
      · exact hnp c hcr

end PydanticDocs

namespace OllamaMCP

/-- Model of the Python values held by the `args` dict of `run_inference`
(`scripts/ollama_mcp_server.py`): strings, JSON-schema-like dicts, `None`. -/
inductive PyVal where
  | pystr : String → PyVal
  | pyobj : List (String × PyVal) → PyVal
  | pynone : PyVal

/-- Python truthiness as used by `if output_schema:` and
`if response_data:`: `None`, the empty string and the empty dict are falsy. -/
def PyVal.truthy : PyVal → Bool
  | .pystr s => s ≠ ""
  | .pyobj entries => ¬ entries.isEmpty
  | .pynone => false

/-- Modelled from the library `str()` rendering used when a value is
interpolated into the error f-string; the exact rendering of dict values is
not significant for any theorem below. -/
def PyVal.pyToStr : PyVal → String
  | .pystr s => s
  | .pyobj _ => "dict"
  | .pynone => "None"

/-- Python `dict` lookup (`args["k"]` / `args.get("k")`) on an association
list: the value of the first matching key, if any. -/
def dictGet (d : List (String × PyVal)) (k : String) : Option PyVal :=
  (d.find? (fun kv => kv.1 = k)).map (fun kv => kv.2)

/-- The `mcp.types.TextContent` record as used by `run_inference`. -/
structure TextContent where
  type : String
  text : String
deriving DecidableEq, Repr

/-- A part of the model response: a part carrying a `content` string
attribute, a part carrying only a `data` attribute (structured output), or a
part with neither. -/
inductive RespPart where
  | content : String → RespPart
  | data : PyVal → RespPart
  | other : RespPart

/-- Model of Python `str.strip()` (no arguments): remove leading and
trailing whitespace. -/
def pyStripWs (s : String) : String :=
  String.mk ((s.data.dropWhile Char.isWhitespace).reverse.dropWhile Char.isWhitespace).reverse

/-- Translated from the `for part in response.parts` loop of
`run_inference`: a `content` part overwrites `response_text` and, when the
stripped text starts with a brace or bracket, attempts `json.loads`
(keeping the previous `response_data` when parsing fails); a `data` part
overwrites `response_data`. Returns (response_text, response_data). The
`loads` argument models the library function `json.loads` as a partial
parse. -/
def processParts (loads : String → Option PyVal) :
    List RespPart → String → Option PyVal → String × Option PyVal
  | [], text, dat => (text, dat)
  | .content c :: rest, _, dat =>
      processParts loads rest c
        (if (pyStripWs c).startsWith "\x7b" ∨ (pyStripWs c).startsWith "[" then
          match loads c with
          | some v => some v
          | none => dat
        else dat)
  | .data d :: rest, text, _ => processParts loads rest text (some d)
  | .other :: rest, text, dat => processParts loads rest text dat

/-- The error f-string built in the `except Exception` handler of
`run_inference`, with `str(e)`, the model name and the base URL
interpolated. -/
def errorText (e modelStr baseStr : String) : String :=
  "Error running inference: " ++ e ++
    "\n\nMake sure:\n1. Ollama is running (ollama serve)\n2. The model '" ++ modelStr ++
    "' is pulled (ollama pull " ++ modelStr ++ ")\n3. The Ollama server is accessible at " ++
    baseStr

/-- Translated from `run_inference` of `scripts/ollama_mcp_server.py`. The
`request` argument is the outcome of the awaited `model_request` call (and
of the model construction preceding it): either the response parts or the
exception it raised; `loads` and `dumps` model the library functions
`json.loads` and `json.dumps(·, indent=2)`. When one of the three required
keys is missing, the `KeyError` is caught but the handler's f-string then
reads the never-assigned `model_name`/`base_url` locals, so an
`UnboundLocalError` escapes — modelled as the `.error` result. -/
def run_inference (loads : String → Option PyVal) (dumps : PyVal → String)
    (request : Except String (List RespPart)) (args : List (String × PyVal)) :
    Except String (List TextContent) :=
  match dictGet args "system_prompt", dictGet args "output_type", dictGet args "user_prompt" with
  | some _, some _, some _ =>
      let model_name := (dictGet args "model").getD (.pystr "gpt-oss:20b")
      let base_url := (dictGet args "ollama_base_url").getD (.pystr "http://localhost:11434/v1")
      match request with
      | .error e => .ok [{ type := "text", text := errorText e model_name.pyToStr base_url.pyToStr }]
      | .ok parts =>
          let res := processParts loads parts "" none
          match res.2 with
          | some v =>
              if v.truthy then .ok [{ type := "text", text := dumps v }]
              else .ok [{ type := "text", text := res.1 }]
          | none => .ok [{ type := "text", text := res.1 }]
  | _, _, _ =>
      .error "UnboundLocalError: cannot access local variable where it is not associated with a value"

end OllamaMCP

namespace OllamaMCP

/-- C10: whenever the args dict contains the keys `system_prompt`,
`output_type` and `user_prompt`, an exception raised by the underlying model
request (or by the response handling inside the `try` block) is not
propagated: `run_inference` returns a single `TextContent` whose text starts
with `Error running inference:`. -/
theorem run_inference_catches_request_error
    (loads : String → Option PyVal) (dumps : PyVal → String)
    (args : List (String × PyVal)) (e : String)
    (h1 : (dictGet args "system_prompt").isSome = true)
    (h2 : (dictGet args "output_type").isSome = true)
    (h3 : (dictGet args "user_prompt").isSome = true) :
    ∃ msg : String,
      run_inference loads dumps (.error e) args = .ok [{ type := "text", text := msg }] ∧
      "Error running inference:".data <+: msg.data := by
  obtain ⟨v1, hv1⟩ := Option.isSome_iff_exists.mp h1
  obtain ⟨v2, hv2⟩ := Option.isSome_iff_exists.mp h2
  obtain ⟨v3, hv3⟩ := Option.isSome_iff_exists.mp h3
  refine ⟨errorText e ((dictGet args "model").getD (.pystr "gpt-oss:20b")).pyToStr
      ((dictGet args "ollama_base_url").getD (.pystr "http://localhost:11434/v1")).pyToStr,
    ?_, ?_⟩
  · simp only [run_inference, hv1, hv2, hv3]
  · have hsp : ("Error running inference:".data) <+: ("Error running inference: ".data) := by
      decide
    simp only [errorText, String.data_append, List.append_assoc]
    exact hsp.trans (List.prefix_append _ _)

/-- C10 witness: the error path evaluated on a concrete args dict holding
the three required keys. -/
theorem run_inference_catches_request_error_witness :
    ((dictGet [("system_prompt", PyVal.pystr "s"), ("output_type", PyVal.pyobj []),
        ("user_prompt", PyVal.pystr "u")] "system_prompt").isSome = true) ∧
    ((dictGet [("system_prompt", PyVal.pystr "s"), ("output_type", PyVal.pyobj []),
        ("user_prompt", PyVal.pystr "u")] "output_type").isSome = true) ∧
    ((dictGet [("system_prompt", PyVal.pystr "s"), ("output_type", PyVal.pyobj []),
        ("user_prompt", PyVal.pystr "u")] "user_prompt").isSome = true) ∧
    (∃ msg : String,
      run_inference (fun _ => none) (fun _ => "") (.error "boom")
          [("system_prompt", PyVal.pystr "s"), ("output_type", PyVal.pyobj []),
           ("user_prompt", PyVal.pystr "u")] =
        .ok [{ type := "text", text := msg }] ∧
      "Error running inference:".data <+: msg.data) :=
  ⟨by rfl, by rfl, by rfl,
   run_inference_catches_request_error (fun _ => none) (fun _ => "") _ "boom"
     (by rfl) (by rfl) (by rfl)⟩

end OllamaMCP
